import Mathlib

/-!
Verification of the line-scanning core of the global-search utility
(src/search.py, function global_search).  Lines are embedded as lists of
characters; the per-line match decision, the quote/comment state machine,
the statistics classifier and the sequential file scan (with its early
truncation return and in-place rewrite) are translated directly from the
source.
-/

namespace GlobalSearch

/-- A physical line of text, as a list of characters. -/
abbrev Line := List Char

/-- The single-quote character, as tested by the source at line 179. -/
def squote : Char := Char.ofNat 39

/-- The double-quote character, as tested by the source at line 179. -/
def dquote : Char := Char.ofNat 34

/-- One step of the quote/comment scanner of src/search.py lines 178-185:
for each character of the substring preceding the match, a quote or the
comment marker toggles the `mode` variable. -/
def stepMode (marker : Char) (mode : Option Char) (c : Char) : Option Char :=
  if c = squote ∨ c = dquote ∨ c = marker then
    match mode with
    | none => some c
    | some m => if m = c then none else some m
  else mode

/-- The final `mode` after scanning a whole substring, starting from
`mode = None` (src/search.py lines 177-185). -/
def commentMode (marker : Char) (s : Line) : Option Char :=
  s.foldl (stepMode marker) none

/-- The decision of src/search.py lines 171-188: the candidate match is
dropped when the marker occurs in the preceding substring and the scanner
finishes with `mode == comment_marker`. -/
def inTrailingComment (marker : Char) (s : Line) : Bool :=
  s.contains marker && (commentMode marker s == some marker)

/-- The four states of the quote/comment state machine, as named by the
specification (QuoteCommentState). -/
inductive QCState where
  | qnone
  | inSingleQuote
  | inDoubleQuote
  | inComment
deriving DecidableEq

/-- Modelled from the spec: one transition of the `classifyPrefix`
contract.  A special character seen in state `qnone` opens the
corresponding state (the comment marker takes precedence when it is itself
a quote character); the identical character closes the state back to
`qnone`; any other character causes no transition. -/
def specStep (marker : Char) (st : QCState) (c : Char) : QCState :=
  match st with
  | .qnone =>
    if c = marker then .inComment
    else if c = squote then .inSingleQuote
    else if c = dquote then .inDoubleQuote
    else .qnone
  | .inSingleQuote => if c = squote then .qnone else .inSingleQuote
  | .inDoubleQuote => if c = dquote then .qnone else .inDoubleQuote
  | .inComment => if c = marker then .qnone else .inComment

/-- Modelled from the spec: `classifyPrefix` scans the whole substring
preceding a candidate match, left to right, starting in state `qnone`. -/
def classifyPrefix (marker : Char) (s : Line) : QCState :=
  s.foldl (specStep marker) .qnone

/-- Abstraction from the character stored in the `mode` variable of the
source to the specification state it denotes. -/
def absMode (marker : Char) : Option Char → QCState
  | none => .qnone
  | some m =>
    if m = marker then .inComment
    else if m = squote then .inSingleQuote
    else if m = dquote then .inDoubleQuote
    else .qnone

/-- The `mode` variable only ever holds a quote or the comment marker. -/
def ModeOK (marker : Char) : Option Char → Prop
  | none => True
  | some m => m = squote ∨ m = dquote ∨ m = marker

/-- Python `str.lower` applied to a line. -/
def lowerLine (l : Line) : Line := l.map Char.toLower

/-- Helper of Python `str.find`: first index at which the needle occurs. -/
def strFindAux (n : Line) : Line → Nat → Option Nat
  | [], i => if n.isPrefixOf [] then some i else none
  | c :: t, i => if n.isPrefixOf (c :: t) then some i else strFindAux n t (i + 1)

/-- Python `h.find(n)` (src/search.py line 167), with `none` for -1. -/
def strFind (h n : Line) : Option Nat := strFindAux n h 0

/-- Python `str.strip()`: whitespace removed from both ends. -/
def pyStrip (l : Line) : Line :=
  ((l.dropWhile Char.isWhitespace).reverse.dropWhile Char.isWhitespace).reverse

/-- Python `str.strip(m)`: the character `m` removed from both ends. -/
def pyStripChar (m : Char) (l : Line) : Line :=
  ((l.dropWhile (fun c => c == m)).reverse.dropWhile (fun c => c == m)).reverse

/-- Fuel-driven core of Python `str.replace`: left-to-right,
non-overlapping replacement of every occurrence of `t` by `r`. -/
def replFuel (t r : Line) : Nat → Line → Line
  | 0, s => s
  | _ + 1, [] => []
  | fuel + 1, c :: s =>
    if t.isPrefixOf (c :: s) then r ++ replFuel t r fuel ((c :: s).drop t.length)
    else c :: replFuel t r fuel s

/-- Python `s.replace(t, r)` (src/search.py line 192).  An empty pattern
inserts the replacement between all characters, as Python does. -/
def pyReplace (s t r : Line) : Line :=
  if t = [] then r ++ s.foldr (fun c acc => c :: (r ++ acc)) []
  else replFuel t r s.length s

/-- The configuration of one invocation of `global_search`
(src/search.py lines 46-59; `case_sensitive` embeds the parameter named
`case` in the source, which is a reserved word here). -/
structure Config where
  string : Line
  case_sensitive : Bool
  include_comments : Bool
  comment_marker : Char
  maximum : Nat
  stats : Bool
  replace_with : Option Line
deriving DecidableEq

/-- The accumulators of the run (src/search.py lines 127-137). -/
structure ScanState where
  code_lines_count : Nat
  comments_lines_count : Nat
  empty_lines_count : Nat
  files_count : Nat
  matching_lines : Nat
  occurrences : Nat
deriving DecidableEq

/-- The accumulators before any file is scanned. -/
def initState : ScanState := ⟨0, 0, 0, 0, 0, 0⟩

/-- Code / comment / blank classification used by statistics mode. -/
inductive LineClass where
  | code
  | comment
  | blank
deriving DecidableEq

/-- Statistics classification of one line (src/search.py lines 150-160):
strip the line; an empty result is blank; a line whose first stripped
character is not the marker is code; otherwise the line is a comment
exactly when stripping the marker from both ends leaves something. -/
def classifyLine (marker : Char) (l : Line) : LineClass :=
  match pyStrip l with
  | [] => .blank
  | c :: cs =>
    if c = marker then
      if pyStripChar marker (c :: cs) = [] then .blank else .comment
    else .code

/-- Update of the three statistics counters for one line. -/
def statsUpdate (marker : Char) (st : ScanState) (l : Line) : ScanState :=
  match classifyLine marker l with
  | .code => {st with code_lines_count := st.code_lines_count + 1}
  | .comment => {st with comments_lines_count := st.comments_lines_count + 1}
  | .blank => {st with empty_lines_count := st.empty_lines_count + 1}

/-- Python `line.lstrip().startswith(comment_marker)` (src/search.py
line 162). -/
def startsWithMarker (marker : Char) (l : Line) : Bool :=
  (l.dropWhile Char.isWhitespace).head? == some marker

/-- The per-line match decision of src/search.py lines 162-188: comment
lines are skipped, the line is case-folded when the search is
case-insensitive, only the first occurrence of the search string is
located, and it is dropped when its preceding substring ends inside a
trailing comment.  Returns the accepted position, if any. -/
def scanLine (cfg : Config) (l : Line) : Option Nat :=
  if !cfg.include_comments && startsWithMarker cfg.comment_marker l then none
  else
    let line := if cfg.case_sensitive then l else lowerLine l
    match strFind line cfg.string with
    | none => none
    | some pos =>
      if !cfg.include_comments && inTrailingComment cfg.comment_marker (line.take pos) then none
      else some pos

/-- The line stored in the rewrite buffer (src/search.py lines 148-149 and
191-192): a matching line is stored with every occurrence of the search
string replaced, any other line is stored unchanged. -/
def outLine (cfg : Config) (l : Line) : Line :=
  if (scanLine cfg l).isSome then
    match cfg.replace_with with
    | some r => pyReplace (if cfg.case_sensitive then l else lowerLine l) cfg.string r
    | none => l
  else l

/-- Scan of the lines of one file (src/search.py lines 147-222).  The
`Sum.inr` case is the early `return` of line 222: the maximum was
exceeded and the whole run stops.  The `Sum.inl` case carries the updated
accumulators, the buffered (possibly rewritten) lines, and the number of
matching lines of the file (the length of `results`). -/
def scanFile (cfg : Config) : ScanState → List Line → (ScanState × List Line × Nat) ⊕ ScanState
  | st, [] => .inl (st, [], 0)
  | st, l :: rest =>
    if cfg.stats then
      match scanFile cfg (statsUpdate cfg.comment_marker st l) rest with
      | .inl (st2, out, m) => .inl (st2, l :: out, m)
      | .inr st2 => .inr st2
    else
      match scanLine cfg l with
      | none =>
        match scanFile cfg st rest with
        | .inl (st2, out, m) => .inl (st2, l :: out, m)
        | .inr st2 => .inr st2
      | some _ =>
        let line := if cfg.case_sensitive then l else lowerLine l
        let newLine :=
          match cfg.replace_with with
          | some r => pyReplace line cfg.string r
          | none => l
        let st1 := {st with occurrences := st.occurrences + 1,
                            matching_lines := st.matching_lines + 1}
        if st1.matching_lines > cfg.maximum then .inr st1
        else
          match scanFile cfg st1 rest with
          | .inl (st2, out, m) => .inl (st2, newLine :: out, m + 1)
          | .inr st2 => .inr st2

/-- Outcome of the whole scan: normal completion, or the early truncation
return of src/search.py line 222. -/
inductive RunOutcome where
  | completed (st : ScanState)
  | truncated (st : ScanState)
deriving DecidableEq

/-- Sequential scan of all candidate files (src/search.py lines 138-238).
Returns the outcome and the final on-disk content of every file: a file is
rewritten from the buffer only when its scan completed with at least one
matching line and a replacement is configured (lines 230-238); on
truncation the current and remaining files keep their original content. -/
def scanFiles (cfg : Config) : ScanState → List (List Line) → RunOutcome × List (List Line)
  | st, [] => (.completed st, [])
  | st, f :: fs =>
    let st0 := {st with files_count := st.files_count + 1}
    match scanFile cfg st0 f with
    | .inr st1 => (.truncated st1, f :: fs)
    | .inl (st1, content, m) =>
      let newF := if cfg.replace_with.isSome ∧ m ≠ 0 then content else f
      let res := scanFiles cfg st1 fs
      (res.1, newF :: res.2)

/-- The summary string returned by `global_search` (lines 222, 240-257),
abstracted to its four distinct shapes. -/
inductive Summary where
  | truncatedMsg
  | statsMsg (code comments empty files : Nat)
  | occurrencesMsg (occ : Nat)
  | replacedMsg (occ : Nat)
deriving DecidableEq

/-- The configuration error of src/search.py line 116 (`assert case`):
a replacement together with a case-insensitive search. -/
inductive ConfigError where
  | replaceRequiresCaseSensitive
deriving DecidableEq

/-- The observable result of a run: the summary, the final content of the
scanned files, and the accumulators. -/
structure RunResult where
  summary : Summary
  files : List (List Line)
  state : ScanState
deriving DecidableEq

instance : DecidableEq (Except ConfigError RunResult) := fun a b =>
  match a, b with
  | .ok x, .ok y =>
    if h : x = y then isTrue (by rw [h])
    else isFalse (by intro hc; exact h (Except.ok.inj hc))
  | .error x, .error y =>
    if h : x = y then isTrue (by rw [h])
    else isFalse (by intro hc; exact h (Except.error.inj hc))
  | .ok _, .error _ => isFalse (by intro hc; exact Except.noConfusion hc)
  | .error _, .ok _ => isFalse (by intro hc; exact Except.noConfusion hc)

/-- The whole invocation (src/search.py lines 46-257), over a given list
of candidate files (each a list of lines).  An empty search string forces
statistics mode (line 112), a case-insensitive search folds the search
string (line 114), and a replacement together with a case-insensitive
search aborts the invocation before any file is touched (line 116). -/
def global_search (cfg : Config) (files : List (List Line)) :
    Except ConfigError RunResult :=
  let cfg1 := if cfg.string = [] then {cfg with stats := true} else cfg
  let cfg2 := if cfg1.case_sensitive then cfg1
              else {cfg1 with string := lowerLine cfg1.string}
  if cfg2.replace_with.isSome ∧ cfg2.case_sensitive = false then
    .error .replaceRequiresCaseSensitive
  else
    let res := scanFiles cfg2 initState files
    match res.1 with
    | .truncated st => .ok ⟨.truncatedMsg, res.2, st⟩
    | .completed st =>
      if cfg2.stats then
        .ok ⟨.statsMsg st.code_lines_count st.comments_lines_count
               st.empty_lines_count st.files_count, res.2, st⟩
      else
        match cfg2.replace_with with
        | none => .ok ⟨.occurrencesMsg st.occurrences, res.2, st⟩
        | some _ => .ok ⟨.replacedMsg st.occurrences, res.2, st⟩

/-- Modelled from the spec: the positions of ALL occurrences of the search
string on a line that the comment-exclusion rule would accept, as claim C2
reads them ("a line containing the search string at several accepted
positions").  The source itself only ever examines the first position. -/
def acceptedPositions (cfg : Config) (l : Line) : List Nat :=
  if !cfg.include_comments && startsWithMarker cfg.comment_marker l then []
  else
    let line := if cfg.case_sensitive then l else lowerLine l
    (List.range (line.length + 1)).filter (fun p =>
      cfg.string.isPrefixOf (line.drop p) &&
      (cfg.include_comments || !inTrailingComment cfg.comment_marker (line.take p)))

/-- Configuration of the C2 counterexample: searching for a in a line with
two plain occurrences. -/
def cfgC2 : Config := ⟨"a".data, true, false, '#', 100, false, none⟩

/-- The line of the C2 counterexample. -/
def lineC2 : Line := "a a".data

/-- Configuration of the C3 counterexample: replace a by ab. -/
def cfgC3 : Config := ⟨"a".data, true, false, '#', 100, false, some "ab".data⟩

/-- The single-line file of the C3 counterexample. -/
def fileC3 : List Line := ["a a".data]

/-- Configuration of the C4 test: search for b, comments excluded. -/
def cfgC4 : Config := ⟨"b".data, true, false, '#', 100, false, none⟩

/-- The quote-protected-marker line of C4. -/
def lineC4 : Line := "x = \"a # b\"".data

/-- Configuration of the C5 truncation test: maximum 2. -/
def cfgC5 : Config := ⟨"hit".data, true, false, '#', 2, false, none⟩

/-- Corpus of five files with one matching line each (C5). -/
def corpusC5 : List (List Line) :=
  [["hit".data], ["hit".data], ["hit".data], ["hit".data], ["hit".data]]

/-- Configuration of the C10 counterexample: an empty search string
together with a replacement and a case-insensitive search. -/
def cfgC10 : Config := ⟨[], false, false, '#', 100, false, some "x".data⟩

/-! ### State-machine lemmas -/

theorem squote_ne_dquote : squote ≠ dquote := by decide

theorem modeOK_step (marker : Char) (mode : Option Char) (c : Char)
    (h : ModeOK marker mode) : ModeOK marker (stepMode marker mode c) := by
  unfold stepMode
  by_cases hs : c = squote ∨ c = dquote ∨ c = marker
  · simp only [hs, if_pos]
    cases mode with
    | none => exact hs
    | some m =>
      by_cases hmc : m = c
      · simp [hmc, ModeOK]
      · simpa [hmc] using h
  · simpa [hs] using h

theorem specStep_other (marker c : Char) (st : QCState)
    (hcm : ¬ c = marker) (hcs : ¬ c = squote) (hcd : ¬ c = dquote) :
    specStep marker st c = st := by
  cases st <;> simp [specStep, hcm, hcs, hcd]

theorem absMode_step (marker : Char) (mode : Option Char) (c : Char)
    (h : ModeOK marker mode) :
    specStep marker (absMode marker mode) c = absMode marker (stepMode marker mode c) := by
  cases mode with
  | none =>
    by_cases hm : c = marker
    · simp [absMode, specStep, stepMode, hm]
    · by_cases hsq : c = squote
      · subst hsq
        simp [absMode, specStep, stepMode, hm, squote_ne_dquote]
      · by_cases hdq : c = dquote
        · subst hdq
          simp [absMode, specStep, stepMode, hm, Ne.symm squote_ne_dquote]
        · simp [absMode, specStep, stepMode, hm, hsq, hdq]
  | some m =>
    have hspec : m = squote ∨ m = dquote ∨ m = marker := h
    by_cases hs : c = squote ∨ c = dquote ∨ c = marker
    · by_cases hmm : m = marker
      · subst hmm
        by_cases hcm : c = m
        · simp [absMode, specStep, stepMode, hs, hcm]
        · simp [absMode, specStep, stepMode, hs, hcm, Ne.symm hcm]
      · rcases hspec with hsq | hdq | hmk
        · subst hsq
          by_cases hcm : c = squote
          · simp [absMode, specStep, stepMode, hs, hcm, hmm]
          · simp [absMode, specStep, stepMode, hs, hcm, hmm, Ne.symm hcm]
        · subst hdq
          by_cases hcm : c = dquote
          · simp [absMode, specStep, stepMode, hs, hcm, hmm, Ne.symm squote_ne_dquote]
          · simp [absMode, specStep, stepMode, hs, hcm, hmm, Ne.symm hcm,
              Ne.symm squote_ne_dquote]
        · exact absurd hmk hmm
    · have hcm : ¬ c = marker := fun hc => hs (Or.inr (Or.inr hc))
      have hcs : ¬ c = squote := fun hc => hs (Or.inl hc)
      have hcd : ¬ c = dquote := fun hc => hs (Or.inr (Or.inl hc))
      rw [specStep_other marker c _ hcm hcs hcd]
      simp [stepMode, hs]

theorem absMode_foldl (marker : Char) :
    ∀ (s : Line) (mode : Option Char), ModeOK marker mode →
      s.foldl (specStep marker) (absMode marker mode) =
        absMode marker (s.foldl (stepMode marker) mode) := by
  intro s
  induction s with
  | nil => intro mode _; rfl
  | cons c t ih =>
    intro mode h
    simp only [List.foldl_cons]
    rw [absMode_step marker mode c h]
    exact ih (stepMode marker mode c) (modeOK_step marker mode c h)

theorem stepMode_eq_marker (marker : Char) (mode : Option Char) (c : Char)
    (h : stepMode marker mode c = some marker) : c = marker ∨ mode = some marker := by
  unfold stepMode at h
  by_cases hs : c = squote ∨ c = dquote ∨ c = marker
  · simp only [hs, if_pos] at h
    cases mode with
    | none => exact Or.inl (Option.some.inj h)
    | some m =>
      by_cases hmc : m = c
      · simp [hmc] at h
      · simp only [hmc, if_neg, if_false] at h
        exact Or.inr (by rw [h])
  · simp only [hs, if_neg, if_false] at h
    exact Or.inr h

theorem foldl_stepMode_mem (marker : Char) :
    ∀ (s : Line) (mode : Option Char),
      s.foldl (stepMode marker) mode = some marker →
        marker ∈ s ∨ mode = some marker := by
  intro s
  induction s with
  | nil => intro mode h; exact Or.inr h
  | cons c t ih =>
    intro mode h
    simp only [List.foldl_cons] at h
    rcases ih (stepMode marker mode c) h with hmem | hstep
    · exact Or.inl (List.mem_cons_of_mem c hmem)
    · rcases stepMode_eq_marker marker mode c hstep with hc | hm
      · exact Or.inl (hc ▸ List.mem_cons_self c t)
      · exact Or.inr hm

theorem absMode_inComment (marker : Char) (mode : Option Char)
    (h : absMode marker mode = QCState.inComment) : mode = some marker := by
  cases mode with
  | none => exact absurd h (by simp [absMode])
  | some m =>
    by_cases hm : m = marker
    · rw [hm]
    · exfalso
      simp only [absMode] at h
      rw [if_neg hm] at h
      by_cases hs : m = squote
      · rw [if_pos hs] at h; exact QCState.noConfusion h
      · rw [if_neg hs] at h
        by_cases hd : m = dquote
        · rw [if_pos hd] at h; exact QCState.noConfusion h
        · rw [if_neg hd] at h; exact QCState.noConfusion h

/-- **C1.** The source scanner of lines 177-188 is exactly the
`classifyPrefix` contract: starting from `None`, a quote or the comment
marker seen in state `None` opens the corresponding state, the identical
character closes it back to `None`, any other special character inside a
state causes no transition, the match is treated as inside a trailing
comment exactly when the final state is `InComment`, and from `InComment`
only the comment marker itself causes a transition. -/
theorem classifyPrefix_correct (marker : Char) (s : Line) :
    classifyPrefix marker s = absMode marker (commentMode marker s)
    ∧ (inTrailingComment marker s = true ↔ classifyPrefix marker s = QCState.inComment)
    ∧ (∀ c : Char, ¬ c = marker → specStep marker QCState.inComment c = QCState.inComment) := by
  have habs : classifyPrefix marker s = absMode marker (commentMode marker s) := by
    unfold classifyPrefix commentMode
    have h0 : (QCState.qnone : QCState) = absMode marker none := rfl
    rw [h0, absMode_foldl marker s none trivial]
  refine ⟨habs, ⟨?_, ?_⟩, ?_⟩
  · intro h
    unfold inTrailingComment at h
    have hmode : commentMode marker s = some marker := by
      have := (Bool.and_eq_true _ _).mp h |>.2
      simpa using this
    rw [habs, hmode]
    simp [absMode]
  · intro h
    rw [habs] at h
    have hmode : commentMode marker s = some marker :=
      absMode_inComment marker _ h
    have hmem : marker ∈ s := by
      rcases foldl_stepMode_mem marker s none hmode with hm | hcontra
      · exact hm
      · exact absurd hcontra (by simp)
    unfold inTrailingComment
    rw [hmode]
    simp [hmem]
  · intro c hc
    simp [specStep, hc]

/-- Witness for C1 at a concrete input: the prefix of the quote-protected
marker line, the marker, and a non-marker character inside a comment. -/
theorem classifyPrefix_correct_witness :
    (¬ 'y' = '#' ∧ specStep '#' QCState.inComment 'y' = QCState.inComment)
    ∧ (inTrailingComment '#' ("x = 1  # TODO ".data) = true
        ↔ classifyPrefix '#' ("x = 1  # TODO ".data) = QCState.inComment) :=
  ⟨⟨by decide, (classifyPrefix_correct '#' []).2.2 'y' (by decide)⟩,
    (classifyPrefix_correct '#' ("x = 1  # TODO ".data)).2.1⟩

/-! ### Scan lemmas -/

theorem scanFile_spec (cfg : Config) (hstats : cfg.stats = false) :
    ∀ (lines : List Line) (st : ScanState),
      st.matching_lines + lines.countP (fun l => (scanLine cfg l).isSome) ≤ cfg.maximum →
      scanFile cfg st lines =
        .inl ({st with
                occurrences :=
                  st.occurrences + lines.countP (fun l => (scanLine cfg l).isSome),
                matching_lines :=
                  st.matching_lines + lines.countP (fun l => (scanLine cfg l).isSome)},
              lines.map (outLine cfg),
              lines.countP (fun l => (scanLine cfg l).isSome)) := by
  intro lines
  induction lines with
  | nil =>
    intro st _
    simp [scanFile]
  | cons l rest ih =>
    intro st hbound
    rw [scanFile]
    rw [hstats]
    simp only [Bool.false_eq_true, if_false]
    cases h : scanLine cfg l with
    | none =>
      have hp : ((scanLine cfg l).isSome) = false := by rw [h]; rfl
      rw [List.countP_cons] at hbound ⊢
      simp only [hp, if_false, Nat.add_zero] at hbound ⊢
      rw [ih st hbound]
      simp [outLine, hp]
    | some pos =>
      have hp : ((scanLine cfg l).isSome) = true := by rw [h]; rfl
      rw [List.countP_cons] at hbound ⊢
      simp only [hp, if_true] at hbound ⊢
      have hnotgt : ¬ (st.matching_lines + 1 > cfg.maximum) := by omega
      simp only [hnotgt, if_false, gt_iff_lt]
      have hbound2 :
          ({st with occurrences := st.occurrences + 1, matching_lines := st.matching_lines + 1} : ScanState).matching_lines + rest.countP (fun l => (scanLine cfg l).isSome) ≤ cfg.maximum := by
        simp; omega
      rw [ih _ hbound2]
      simp only [List.map_cons, outLine, hp, if_true, Sum.inl.injEq, Prod.mk.injEq,
        ScanState.mk.injEq, true_and, and_true]
      omega

theorem scanFile_inr_matching (cfg : Config) (hstats : cfg.stats = false) :
    ∀ (lines : List Line) (st st2 : ScanState),
      st.matching_lines ≤ cfg.maximum →
      scanFile cfg st lines = .inr st2 →
      st2.matching_lines = cfg.maximum + 1 := by
  intro lines
  induction lines with
  | nil =>
    intro st st2 _ h
    simp [scanFile] at h
  | cons l rest ih =>
    intro st st2 hle h
    rw [scanFile] at h
    rw [hstats] at h
    simp only [Bool.false_eq_true, if_false] at h
    cases hl : scanLine cfg l with
    | none =>
      rw [hl] at h
      cases hrec : scanFile cfg st rest with
      | inl v => rw [hrec] at h; exact absurd h (by simp)
      | inr st3 =>
        rw [hrec] at h
        simp only [Sum.inr.injEq] at h
        exact h ▸ ih st st3 hle hrec
    | some pos =>
      rw [hl] at h
      by_cases hgt : st.matching_lines + 1 > cfg.maximum
      · simp only [hgt, if_true, gt_iff_lt, Sum.inr.injEq] at h
        have : st2.matching_lines = st.matching_lines + 1 := by rw [← h]
        omega
      · simp only [hgt, if_false, gt_iff_lt] at h
        cases hrec : scanFile cfg {st with occurrences := st.occurrences + 1, matching_lines := st.matching_lines + 1} rest with
        | inl v => rw [hrec] at h; exact absurd h (by simp)
        | inr st3 =>
          rw [hrec] at h
          simp only [Sum.inr.injEq] at h
          have hle2 : ({st with occurrences := st.occurrences + 1, matching_lines := st.matching_lines + 1} : ScanState).matching_lines ≤ cfg.maximum := by
            simp; omega
          exact h ▸ ih _ st3 hle2 hrec

theorem scanFile_cons_stats_inl (cfg : Config) (st : ScanState) (l : Line)
    (rest : List Line) (st2 : ScanState) (out : List Line) (m : Nat)
    (hstats : cfg.stats = true)
    (hrec : scanFile cfg (statsUpdate cfg.comment_marker st l) rest = .inl (st2, out, m)) :
    scanFile cfg st (l :: rest) = .inl (st2, l :: out, m) := by
  rw [scanFile, if_pos hstats, hrec]

theorem scanFile_cons_stats_inr (cfg : Config) (st : ScanState) (l : Line)
    (rest : List Line) (st2 : ScanState)
    (hstats : cfg.stats = true)
    (hrec : scanFile cfg (statsUpdate cfg.comment_marker st l) rest = .inr st2) :
    scanFile cfg st (l :: rest) = .inr st2 := by
  rw [scanFile, if_pos hstats, hrec]

theorem scanFile_cons_none_inl (cfg : Config) (st : ScanState) (l : Line)
    (rest : List Line) (st2 : ScanState) (out : List Line) (m : Nat)
    (hstats : cfg.stats = false) (hl : scanLine cfg l = none)
    (hrec : scanFile cfg st rest = .inl (st2, out, m)) :
    scanFile cfg st (l :: rest) = .inl (st2, l :: out, m) := by
  rw [scanFile, hstats]
  simp only [Bool.false_eq_true, if_false]
  rw [hl, hrec]

theorem scanFile_cons_none_inr (cfg : Config) (st : ScanState) (l : Line)
    (rest : List Line) (st2 : ScanState)
    (hstats : cfg.stats = false) (hl : scanLine cfg l = none)
    (hrec : scanFile cfg st rest = .inr st2) :
    scanFile cfg st (l :: rest) = .inr st2 := by
  rw [scanFile, hstats]
  simp only [Bool.false_eq_true, if_false]
  rw [hl, hrec]

theorem scanFile_cons_some_trunc (cfg : Config) (st : ScanState) (l : Line)
    (rest : List Line) (pos : Nat)
    (hstats : cfg.stats = false) (hl : scanLine cfg l = some pos)
    (hgt : st.matching_lines + 1 > cfg.maximum) :
    scanFile cfg st (l :: rest) =
      .inr {st with occurrences := st.occurrences + 1, matching_lines := st.matching_lines + 1} := by
  rw [scanFile, hstats]
  simp only [Bool.false_eq_true, if_false]
  rw [hl]
  simp only [if_pos hgt]

theorem scanFile_cons_some_inl (cfg : Config) (st : ScanState) (l : Line)
    (rest : List Line) (pos : Nat) (st2 : ScanState) (out : List Line) (m : Nat)
    (hstats : cfg.stats = false) (hl : scanLine cfg l = some pos)
    (hgt : ¬ st.matching_lines + 1 > cfg.maximum)
    (hrec : scanFile cfg {st with occurrences := st.occurrences + 1, matching_lines := st.matching_lines + 1} rest = .inl (st2, out, m)) :
    scanFile cfg st (l :: rest) =
      .inl (st2,
        (match cfg.replace_with with
          | some r => pyReplace (if cfg.case_sensitive then l else lowerLine l) cfg.string r
          | none => l) :: out, m + 1) := by
  rw [scanFile, hstats]
  simp only [Bool.false_eq_true, if_false]
  rw [hl]
  simp only [if_neg hgt]
  rw [hrec]

theorem scanFile_cons_some_inr (cfg : Config) (st : ScanState) (l : Line)
    (rest : List Line) (pos : Nat) (st2 : ScanState)
    (hstats : cfg.stats = false) (hl : scanLine cfg l = some pos)
    (hgt : ¬ st.matching_lines + 1 > cfg.maximum)
    (hrec : scanFile cfg {st with occurrences := st.occurrences + 1, matching_lines := st.matching_lines + 1} rest = .inr st2) :
    scanFile cfg st (l :: rest) = .inr st2 := by
  rw [scanFile, hstats]
  simp only [Bool.false_eq_true, if_false]
  rw [hl]
  simp only [if_neg hgt]
  rw [hrec]

theorem scanFile_append_inr (cfg : Config) :
    ∀ (xs : List Line) (st st2 : ScanState) (ys : List Line),
      scanFile cfg st xs = .inr st2 →
      scanFile cfg st (xs ++ ys) = .inr st2 := by
  intro xs
  induction xs with
  | nil =>
    intro st st2 ys h
    simp [scanFile] at h
  | cons l rest ih =>
    intro st st2 ys h
    rw [List.cons_append]
    by_cases hstats : cfg.stats = true
    · rw [scanFile, if_pos hstats] at h
      cases hrec : scanFile cfg (statsUpdate cfg.comment_marker st l) rest with
      | inl v =>
        rw [hrec] at h
        simp at h
      | inr st3 =>
        rw [hrec] at h
        simp only [Sum.inr.injEq] at h
        subst h
        exact scanFile_cons_stats_inr cfg st l (rest ++ ys) st3 hstats (ih _ _ ys hrec)
    · have hstats2 : cfg.stats = false := by
        cases hb : cfg.stats
        · rfl
        · exact absurd hb hstats
      rw [scanFile, hstats2] at h
      simp only [Bool.false_eq_true, if_false] at h
      cases hl : scanLine cfg l with
      | none =>
        rw [hl] at h
        cases hrec : scanFile cfg st rest with
        | inl v =>
          rw [hrec] at h
          simp at h
        | inr st3 =>
          rw [hrec] at h
          simp only [Sum.inr.injEq] at h
          subst h
          exact scanFile_cons_none_inr cfg st l (rest ++ ys) st3 hstats2 hl (ih _ _ ys hrec)
      | some pos =>
        rw [hl] at h
        by_cases hgt : st.matching_lines + 1 > cfg.maximum
        · simp only [if_pos hgt, Sum.inr.injEq] at h
          subst h
          exact scanFile_cons_some_trunc cfg st l (rest ++ ys) pos hstats2 hl hgt
        · simp only [if_neg hgt] at h
          cases hrec : scanFile cfg {st with occurrences := st.occurrences + 1, matching_lines := st.matching_lines + 1} rest with
          | inl v =>
            rw [hrec] at h
            simp at h
          | inr st3 =>
            rw [hrec] at h
            simp only [Sum.inr.injEq] at h
            subst h
            exact scanFile_cons_some_inr cfg st l (rest ++ ys) pos st3 hstats2 hl hgt (ih _ _ ys hrec)

theorem scanFiles_cons_inr (cfg : Config) (st : ScanState) (f : List Line)
    (fs : List (List Line)) (st1 : ScanState)
    (hrec : scanFile cfg {st with files_count := st.files_count + 1} f = .inr st1) :
    scanFiles cfg st (f :: fs) = (.truncated st1, f :: fs) := by
  rw [scanFiles]
  simp only [hrec]

theorem scanFiles_cons_inl (cfg : Config) (st : ScanState) (f : List Line)
    (fs : List (List Line)) (st1 : ScanState) (content : List Line) (m : Nat)
    (hrec : scanFile cfg {st with files_count := st.files_count + 1} f = .inl (st1, content, m)) :
    scanFiles cfg st (f :: fs) =
      ((scanFiles cfg st1 fs).1,
        (if cfg.replace_with.isSome ∧ m ≠ 0 then content else f) :: (scanFiles cfg st1 fs).2) := by
  rw [scanFiles]
  simp only [hrec]

theorem scanFiles_append_trunc (cfg : Config) :
    ∀ (xs : List (List Line)) (st st2 : ScanState) (out ys : List (List Line)),
      scanFiles cfg st xs = (.truncated st2, out) →
      scanFiles cfg st (xs ++ ys) = (.truncated st2, out ++ ys) := by
  intro xs
  induction xs with
  | nil =>
    intro st st2 out ys h
    simp [scanFiles] at h
  | cons f fs ih =>
    intro st st2 out ys h
    rw [List.cons_append]
    cases hrec : scanFile cfg {st with files_count := st.files_count + 1} f with
    | inr st1 =>
      rw [scanFiles_cons_inr cfg st f fs st1 hrec] at h
      simp only [Prod.mk.injEq, RunOutcome.truncated.injEq] at h
      obtain ⟨h1, h2⟩ := h
      rw [← h1, ← h2, List.cons_append]
      exact scanFiles_cons_inr cfg st f (fs ++ ys) st1 hrec
    | inl v =>
      obtain ⟨st1, content, m⟩ := v
      rw [scanFiles_cons_inl cfg st f fs st1 content m hrec] at h
      cases hfs : scanFiles cfg st1 fs with
      | mk o rs =>
        rw [hfs] at h
        simp only [Prod.mk.injEq] at h
        obtain ⟨h1, h2⟩ := h
        subst h1
        subst h2
        rw [scanFiles_cons_inl cfg st f (fs ++ ys) st1 content m hrec]
        rw [ih st1 st2 rs ys hfs]
        simp

theorem scanFiles_append_completed (cfg : Config) :
    ∀ (xs : List (List Line)) (st st2 : ScanState) (out ys : List (List Line)),
      scanFiles cfg st xs = (.completed st2, out) →
      scanFiles cfg st (xs ++ ys) =
        ((scanFiles cfg st2 ys).1, out ++ (scanFiles cfg st2 ys).2) := by
  intro xs
  induction xs with
  | nil =>
    intro st st2 out ys h
    rw [scanFiles] at h
    simp only [Prod.mk.injEq, RunOutcome.completed.injEq] at h
    obtain ⟨h1, h2⟩ := h
    subst h1
    subst h2
    simp
  | cons f fs ih =>
    intro st st2 out ys h
    rw [List.cons_append]
    cases hrec : scanFile cfg {st with files_count := st.files_count + 1} f with
    | inr st1 =>
      rw [scanFiles_cons_inr cfg st f fs st1 hrec] at h
      simp at h
    | inl v =>
      obtain ⟨st1, content, m⟩ := v
      rw [scanFiles_cons_inl cfg st f fs st1 content m hrec] at h
      cases hfs : scanFiles cfg st1 fs with
      | mk o rs =>
        rw [hfs] at h
        simp only [Prod.mk.injEq] at h
        obtain ⟨h1, h2⟩ := h
        subst h1
        subst h2
        rw [scanFiles_cons_inl cfg st f (fs ++ ys) st1 content m hrec]
        rw [ih st1 st2 rs ys hfs]
        simp

theorem scanFile_stats_run (cfg : Config) (hstats : cfg.stats = true) :
    ∀ (lines : List Line) (st : ScanState),
      scanFile cfg st lines =
        .inl (lines.foldl (statsUpdate cfg.comment_marker) st, lines, 0) := by
  intro lines
  induction lines with
  | nil => intro st; simp [scanFile]
  | cons l rest ih =>
    intro st
    rw [List.foldl_cons]
    exact scanFile_cons_stats_inl cfg st l rest _ rest 0 hstats (ih _)

theorem scanFiles_stats_run (cfg : Config) (hstats : cfg.stats = true) :
    ∀ (files : List (List Line)) (st : ScanState),
      scanFiles cfg st files =
        (.completed (files.foldl
          (fun s f => f.foldl (statsUpdate cfg.comment_marker) {s with files_count := s.files_count + 1}) st),
         files) := by
  intro files
  induction files with
  | nil => intro st; simp [scanFiles]
  | cons f fs ih =>
    intro st
    have hrec := scanFile_stats_run cfg hstats f {st with files_count := st.files_count + 1}
    rw [scanFiles_cons_inl cfg st f fs _ f 0 hrec]
    rw [ih _]
    simp

theorem statsUpdate_fields (mk : Char) (st : ScanState) (l : Line) :
    (statsUpdate mk st l).occurrences = st.occurrences ∧
    (statsUpdate mk st l).matching_lines = st.matching_lines ∧
    (statsUpdate mk st l).files_count = st.files_count ∧
    (statsUpdate mk st l).code_lines_count + (statsUpdate mk st l).comments_lines_count + (statsUpdate mk st l).empty_lines_count = st.code_lines_count + st.comments_lines_count + st.empty_lines_count + 1 := by
  cases h : classifyLine mk l <;> simp [statsUpdate, h] <;> omega

theorem statsFold_lines (mk : Char) :
    ∀ (lines : List Line) (st : ScanState),
      (lines.foldl (statsUpdate mk) st).occurrences = st.occurrences ∧
      (lines.foldl (statsUpdate mk) st).matching_lines = st.matching_lines ∧
      (lines.foldl (statsUpdate mk) st).files_count = st.files_count ∧
      (lines.foldl (statsUpdate mk) st).code_lines_count + (lines.foldl (statsUpdate mk) st).comments_lines_count + (lines.foldl (statsUpdate mk) st).empty_lines_count = st.code_lines_count + st.comments_lines_count + st.empty_lines_count + lines.length := by
  intro lines
  induction lines with
  | nil => intro st; simp
  | cons l rest ih =>
    intro st
    rw [List.foldl_cons]
    obtain ⟨h1, h2, h3, h4⟩ := ih (statsUpdate mk st l)
    obtain ⟨g1, g2, g3, g4⟩ := statsUpdate_fields mk st l
    refine ⟨by rw [h1, g1], by rw [h2, g2], by rw [h3, g3], ?_⟩
    rw [h4]
    rw [List.length_cons]
    omega

theorem statsFold_files (mk : Char) :
    ∀ (files : List (List Line)) (st : ScanState),
      (files.foldl (fun s f => f.foldl (statsUpdate mk) {s with files_count := s.files_count + 1}) st).occurrences = st.occurrences ∧
      (files.foldl (fun s f => f.foldl (statsUpdate mk) {s with files_count := s.files_count + 1}) st).matching_lines = st.matching_lines ∧
      (files.foldl (fun s f => f.foldl (statsUpdate mk) {s with files_count := s.files_count + 1}) st).files_count = st.files_count + files.length ∧
      (files.foldl (fun s f => f.foldl (statsUpdate mk) {s with files_count := s.files_count + 1}) st).code_lines_count + (files.foldl (fun s f => f.foldl (statsUpdate mk) {s with files_count := s.files_count + 1}) st).comments_lines_count + (files.foldl (fun s f => f.foldl (statsUpdate mk) {s with files_count := s.files_count + 1}) st).empty_lines_count = st.code_lines_count + st.comments_lines_count + st.empty_lines_count + (files.map List.length).sum := by
  intro files
  induction files with
  | nil => intro st; simp
  | cons f fs ih =>
    intro st
    rw [List.foldl_cons]
    obtain ⟨h1, h2, h3, h4⟩ := ih (f.foldl (statsUpdate mk) {st with files_count := st.files_count + 1})
    obtain ⟨g1, g2, g3, g4⟩ := statsFold_lines mk f {st with files_count := st.files_count + 1}
    refine ⟨by rw [h1, g1], by rw [h2, g2], ?_, ?_⟩
    · rw [h3, g3]
      simp
      omega
    · rw [h4]
      simp at g4 ⊢
      omega

theorem scanFiles_nomatch (cfg : Config) (hstats : cfg.stats = false) :
    ∀ (files : List (List Line)) (st : ScanState),
      st.matching_lines ≤ cfg.maximum →
      (∀ f ∈ files, ∀ l ∈ f, scanLine cfg l = none) →
      scanFiles cfg st files =
        (.completed {st with files_count := st.files_count + files.length}, files) := by
  intro files
  induction files with
  | nil => intro st _ _; simp [scanFiles]
  | cons f fs ih =>
    intro st hle hall
    have hcount : f.countP (fun l => (scanLine cfg l).isSome) = 0 :=
      List.countP_eq_zero.mpr (fun l hl => by
        rw [hall f (List.mem_cons_self f fs) l hl]; simp)
    have hbound : ({st with files_count := st.files_count + 1} : ScanState).matching_lines + f.countP (fun l => (scanLine cfg l).isSome) ≤ cfg.maximum := by
      rw [hcount]; simpa using hle
    have hrec := scanFile_spec cfg hstats f {st with files_count := st.files_count + 1} hbound
    rw [hcount] at hrec
    simp only [Nat.add_zero] at hrec
    have hmap : f.map (outLine cfg) = f := by
      rw [List.map_congr_left (fun l hl => by
        simp [outLine, hall f (List.mem_cons_self f fs) l hl] : ∀ l ∈ f, outLine cfg l = l)]
      simp
    rw [hmap] at hrec
    rw [scanFiles_cons_inl cfg st f fs _ f 0 hrec]
    rw [ih _ (by simpa using hle) (fun g hg l hl => hall g (List.mem_cons_of_mem f hg) l hl)]
    simp
    omega

theorem dropWhile_eq_self_of (p : Char → Bool) :
    ∀ (m : List Char), (∀ c ∈ m, p c = false) → m.dropWhile p = m := by
  intro m h
  cases m with
  | nil => rfl
  | cons a as =>
    rw [List.dropWhile_cons]
    simp [h a (List.mem_cons_self a as)]

theorem pyStrip_nil_of_ws (l : Line) (h : ∀ c ∈ l, c.isWhitespace = true) :
    pyStrip l = [] := by
  unfold pyStrip
  have h1 : l.dropWhile Char.isWhitespace = [] := List.dropWhile_eq_nil_iff.mpr h
  rw [h1]
  rfl

theorem pyStrip_eq_self (l : Line) (h : ∀ c ∈ l, c.isWhitespace = false) :
    pyStrip l = l := by
  unfold pyStrip
  rw [dropWhile_eq_self_of _ l h]
  rw [dropWhile_eq_self_of _ l.reverse (fun c hc => h c (List.mem_reverse.mp hc))]
  exact List.reverse_reverse l

theorem pyStripChar_nil_of_all (m : Char) (l : Line) (h : ∀ c ∈ l, c = m) :
    pyStripChar m l = [] := by
  unfold pyStripChar
  have h1 : l.dropWhile (fun c => c == m) = [] :=
    List.dropWhile_eq_nil_iff.mpr (fun c hc => by simp [h c hc])
  rw [h1]
  rfl

theorem pyStripChar_all_of_nil (m : Char) (l : Line) (h : pyStripChar m l = []) :
    ∀ c ∈ l, c = m := by
  unfold pyStripChar at h
  rw [List.reverse_eq_nil_iff] at h
  rw [List.dropWhile_eq_nil_iff] at h
  intro c hc
  have hsplit := List.takeWhile_append_dropWhile (fun c => c == m) l
  rw [← hsplit] at hc
  rcases List.mem_append.mp hc with htk | hdr
  · have := List.mem_takeWhile_imp htk
    simpa using this
  · have := h c (List.mem_reverse.mpr hdr)
    simpa using this

/-- **C6.** Statistics classification: a whitespace-only line is blank; a
line consisting solely of repeated comment markers is blank, not comment;
a line whose first stripped character is the marker followed by any
non-marker content is a comment; any other stripped non-empty line is
code. -/
theorem blank_comment_classification (marker : Char) (l : Line) :
    ((∀ c ∈ l, c.isWhitespace = true) → classifyLine marker l = .blank)
    ∧ (l ≠ [] → (∀ c ∈ l, c = marker) → classifyLine marker l = .blank)
    ∧ (∀ c cs, pyStrip l = c :: cs → c = marker → (∃ d ∈ cs, d ≠ marker) →
        classifyLine marker l = .comment)
    ∧ (∀ c cs, pyStrip l = c :: cs → c ≠ marker → classifyLine marker l = .code) := by
  refine ⟨?_, ?_, ?_, ?_⟩
  · intro h
    unfold classifyLine
    rw [pyStrip_nil_of_ws l h]
  · intro hne hall
    by_cases hws : marker.isWhitespace = true
    · have : ∀ c ∈ l, c.isWhitespace = true := fun c hc => by rw [hall c hc]; exact hws
      unfold classifyLine
      rw [pyStrip_nil_of_ws l this]
    · have hnws : ∀ c ∈ l, c.isWhitespace = false := fun c hc => by
        rw [hall c hc]
        cases hb : marker.isWhitespace
        · rfl
        · exact absurd hb hws
      cases l with
      | nil => exact absurd rfl hne
      | cons a as =>
        have hstrip : pyStrip (a :: as) = a :: as := pyStrip_eq_self (a :: as) hnws
        have ha : a = marker := hall a (List.mem_cons_self a as)
        simp only [classifyLine, hstrip]
        rw [if_pos ha]
        rw [if_pos (pyStripChar_nil_of_all marker (a :: as) hall)]
  · intro c cs hstrip hc hex
    simp only [classifyLine, hstrip]
    rw [if_pos hc]
    obtain ⟨d, hd, hdm⟩ := hex
    have hne : ¬ pyStripChar marker (c :: cs) = [] := fun hnil =>
      hdm (pyStripChar_all_of_nil marker (c :: cs) hnil d (List.mem_cons_of_mem c hd))
    rw [if_neg hne]
  · intro c cs hstrip hc
    simp only [classifyLine, hstrip]
    rw [if_neg hc]

/-- Witness for C6: the divider line of four markers is blank, not
comment. -/
theorem blank_comment_classification_witness :
    (("####".data : Line) ≠ [] ∧ (∀ c ∈ ("####".data : Line), c = '#'))
    ∧ classifyLine '#' "####".data = LineClass.blank :=
  ⟨⟨by decide, by decide⟩,
    (blank_comment_classification '#' "####".data).2.1 (by decide) (by decide)⟩

/-- **C2 counterexample.** The line a-space-a contains the search string
at two accepted positions, yet the run counts a single occurrence: the
occurrence count is incremented once per matching line, not once per
accepted position. -/
theorem occurrences_per_line_cex :
    (acceptedPositions cfgC2 lineC2).length = 2
    ∧ global_search cfgC2 [[lineC2]] =
        .ok ⟨.occurrencesMsg 1, [[lineC2]], ⟨0, 0, 0, 1, 1, 1⟩⟩
    ∧ (1 : Nat) ≠ 2 :=
  ⟨by decide, by decide, by decide⟩

/-- **C2 (amended).** Every matching line (a line whose scan accepts its
first located occurrence) increments the occurrence count and the
matching-line count by exactly one each; only the first occurrence per
line is ever examined. -/
theorem occurrences_per_line_amended (cfg : Config) (lines : List Line) (st : ScanState)
    (hstats : cfg.stats = false)
    (hbound : st.matching_lines + lines.countP (fun l => (scanLine cfg l).isSome) ≤ cfg.maximum) :
    scanFile cfg st lines =
      .inl ({st with occurrences := st.occurrences + lines.countP (fun l => (scanLine cfg l).isSome), matching_lines := st.matching_lines + lines.countP (fun l => (scanLine cfg l).isSome)},
            lines.map (outLine cfg),
            lines.countP (fun l => (scanLine cfg l).isSome)) :=
  scanFile_spec cfg hstats lines st hbound

/-- Witness for the amended C2 at the two-occurrence line. -/
theorem occurrences_per_line_amended_witness :
    (cfgC2.stats = false
      ∧ (⟨0, 0, 0, 0, 0, 0⟩ : ScanState).matching_lines
          + [lineC2].countP (fun l => (scanLine cfgC2 l).isSome) ≤ cfgC2.maximum)
    ∧ scanFile cfgC2 ⟨0, 0, 0, 0, 0, 0⟩ [lineC2] =
        .inl (⟨0, 0, 0, 0, 1, 1⟩, [lineC2], 1) :=
  ⟨⟨by decide, by decide⟩,
    (occurrences_per_line_amended cfgC2 [lineC2] ⟨0, 0, 0, 0, 0, 0⟩
      (by decide) (by decide)).trans (by decide)⟩

/-- **C4.** For the line x = "a # b" with marker # and comment inclusion
disabled, searching for b yields exactly one occurrence: the prefix of the
match leaves the state machine inside the double-quoted string, so the
marker does not start a trailing comment. -/
theorem quote_protected_marker :
    global_search cfgC4 [[lineC4]] =
      .ok ⟨.occurrencesMsg 1, [[lineC4]], ⟨0, 0, 0, 1, 1, 1⟩⟩
    ∧ scanLine cfgC4 lineC4 = some 9
    ∧ classifyPrefix '#' (lineC4.take 9) = QCState.inDoubleQuote :=
  ⟨by decide, by decide, by decide⟩

/-- **C5.** Once the matching-line count exceeds the configured maximum
the scan stops: lines and files after the halt point have no effect on the
result, the truncation state holds exactly maximum + 1 matching lines, and
on the concrete five-file corpus with maximum 2 the run stops right after
the third matching line, in its third file, with the distinct truncation
summary. -/
theorem truncation_halts :
    (∀ (cfg : Config) (st st2 : ScanState) (xs ys : List Line),
        scanFile cfg st xs = .inr st2 → scanFile cfg st (xs ++ ys) = .inr st2)
    ∧ (∀ (cfg : Config) (st st2 : ScanState) (xs out ys : List (List Line)),
        scanFiles cfg st xs = (.truncated st2, out) →
        scanFiles cfg st (xs ++ ys) = (.truncated st2, out ++ ys))
    ∧ (∀ (cfg : Config) (st st2 : ScanState) (lines : List Line),
        cfg.stats = false → st.matching_lines ≤ cfg.maximum →
        scanFile cfg st lines = .inr st2 → st2.matching_lines = cfg.maximum + 1)
    ∧ (global_search cfgC5 corpusC5 =
        .ok ⟨.truncatedMsg, corpusC5, ⟨0, 0, 0, 3, 3, 3⟩⟩
      ∧ ∀ (n : Nat), Summary.truncatedMsg ≠ Summary.occurrencesMsg n) := by
  refine ⟨?_, ?_, ?_, by decide, ?_⟩
  · intro cfg st st2 xs ys h
    exact scanFile_append_inr cfg xs st st2 ys h
  · intro cfg st st2 xs out ys h
    exact scanFiles_append_trunc cfg xs st st2 out ys h
  · intro cfg st st2 lines h1 h2 h3
    exact scanFile_inr_matching cfg h1 lines st st2 h2 h3
  · intro n hcontra
    exact Summary.noConfusion hcontra

/-- Witness for C5: a concrete truncating file scan, extended by a line
that is never read, reaching exactly maximum + 1 matching lines. -/
theorem truncation_halts_witness :
    scanFile cfgC5 ⟨0, 0, 0, 0, 2, 2⟩ (["hit".data] ++ ["zzz".data]) =
        .inr ⟨0, 0, 0, 0, 3, 3⟩
    ∧ (cfgC5.stats = false
        ∧ (⟨0, 0, 0, 0, 2, 2⟩ : ScanState).matching_lines ≤ cfgC5.maximum)
    ∧ (⟨0, 0, 0, 0, 3, 3⟩ : ScanState).matching_lines = cfgC5.maximum + 1 :=
  ⟨truncation_halts.1 cfgC5 ⟨0, 0, 0, 0, 2, 2⟩ ⟨0, 0, 0, 0, 3, 3⟩
      ["hit".data] ["zzz".data] (by decide),
    ⟨by decide, by decide⟩,
    truncation_halts.2.2.1 cfgC5 ⟨0, 0, 0, 0, 2, 2⟩ ⟨0, 0, 0, 0, 3, 3⟩
      ["hit".data] (by decide) (by decide) (by decide)⟩

/-- **C7.** A replacement string together with a case-insensitive search
fails the whole invocation immediately: the result is the configuration
error, identical for every file list, so no file is read or modified. -/
theorem config_rejection (cfg : Config) (files : List (List Line)) (r : Line)
    (hrepl : cfg.replace_with = some r) (hcase : cfg.case_sensitive = false) :
    global_search cfg files = .error .replaceRequiresCaseSensitive
    ∧ global_search cfg files = global_search cfg [] := by
  have hmain : ∀ (gs : List (List Line)),
      global_search cfg gs = .error .replaceRequiresCaseSensitive := by
    intro gs
    unfold global_search
    by_cases hstr : cfg.string = []
    · rw [if_pos hstr]
      simp [hcase, hrepl]
    · rw [if_neg hstr]
      simp [hcase, hrepl]
  exact ⟨hmain files, (hmain files).trans (hmain []).symm⟩

/-- Witness for C7 at a concrete invalid configuration. -/
theorem config_rejection_witness :
    ((⟨"q".data, false, false, '#', 10, false, some "z".data⟩ : Config).replace_with = some "z".data
      ∧ (⟨"q".data, false, false, '#', 10, false, some "z".data⟩ : Config).case_sensitive = false)
    ∧ global_search ⟨"q".data, false, false, '#', 10, false, some "z".data⟩ [["abc".data]] =
        .error .replaceRequiresCaseSensitive :=
  ⟨⟨by decide, by decide⟩,
    (config_rejection ⟨"q".data, false, false, '#', 10, false, some "z".data⟩
      [["abc".data]] "z".data (by decide) (by decide)).1⟩

/-- **C9.** When the maximum is exceeded while scanning a file, the whole
run returns the truncation result before that file is rewritten: earlier
files keep their rewrites (out0), the current file and all later files
keep their original content, and the buffered lines of the current file
are discarded. -/
theorem trunc_discards_current_file (cfg : Config) (fs0 : List (List Line))
    (f : List Line) (fs : List (List Line)) (st1 st2 : ScanState)
    (out0 : List (List Line))
    (hstr : cfg.string ≠ []) (hcase : cfg.case_sensitive = true)
    (h1 : scanFiles cfg initState fs0 = (.completed st1, out0))
    (h2 : scanFile cfg {st1 with files_count := st1.files_count + 1} f = .inr st2) :
    global_search cfg (fs0 ++ f :: fs) = .ok ⟨.truncatedMsg, out0 ++ f :: fs, st2⟩ := by
  have h3 : scanFiles cfg st1 (f :: fs) = (.truncated st2, f :: fs) :=
    scanFiles_cons_inr cfg st1 f fs st2 h2
  have h4 := scanFiles_append_completed cfg fs0 initState st1 out0 (f :: fs) h1
  rw [h3] at h4
  simp only [global_search, if_neg hstr, hcase, eq_self_iff_true, if_true,
    Bool.true_eq_false, and_false, if_false]
  rw [h4]

/-- Witness for C9: two files exhaust the maximum, the third file
truncates; it and the remaining two files stay untouched. -/
theorem trunc_discards_current_file_witness :
    (cfgC5.string ≠ [] ∧ cfgC5.case_sensitive = true
      ∧ scanFiles cfgC5 initState [["hit".data], ["hit".data]] =
          (.completed ⟨0, 0, 0, 2, 2, 2⟩, [["hit".data], ["hit".data]])
      ∧ scanFile cfgC5 ⟨0, 0, 0, 3, 2, 2⟩ ["hit".data] = .inr ⟨0, 0, 0, 3, 3, 3⟩)
    ∧ global_search cfgC5
        ([["hit".data], ["hit".data]] ++ ["hit".data] :: [["hit".data], ["hit".data]]) =
      .ok ⟨.truncatedMsg,
            [["hit".data], ["hit".data]] ++ ["hit".data] :: [["hit".data], ["hit".data]],
            ⟨0, 0, 0, 3, 3, 3⟩⟩ :=
  ⟨⟨by decide, by decide, by decide, by decide⟩,
    trunc_discards_current_file cfgC5 [["hit".data], ["hit".data]] ["hit".data]
      [["hit".data], ["hit".data]] ⟨0, 0, 0, 2, 2, 2⟩ ⟨0, 0, 0, 3, 3, 3⟩
      [["hit".data], ["hit".data]] (by decide) (by decide) (by decide) (by decide)⟩

/-- **C10 counterexample.** With an empty search string, a configured
replacement and a case-insensitive search, the invocation fails with the
configuration error instead of returning the statistics summary. -/
theorem empty_string_stats_cex :
    cfgC10.string = []
    ∧ global_search cfgC10 [] = .error .replaceRequiresCaseSensitive :=
  ⟨by decide, by decide⟩

/-- **C10 (amended).** An empty search string forces statistics mode,
provided the configuration passes the replacement/case check: every line
of every file is classified (the three counters sum to the total line
count), no match is counted and nothing is replaced (all files are
returned unchanged), and the statistics summary is returned. -/
theorem empty_string_stats_amended (cfg : Config) (files : List (List Line))
    (hstr : cfg.string = [])
    (hvalid : ¬ (cfg.replace_with.isSome = true ∧ cfg.case_sensitive = false)) :
    ∃ st : ScanState,
      global_search cfg files =
        .ok ⟨.statsMsg st.code_lines_count st.comments_lines_count
                st.empty_lines_count st.files_count, files, st⟩
      ∧ st.occurrences = 0 ∧ st.matching_lines = 0
      ∧ st.files_count = files.length
      ∧ st.code_lines_count + st.comments_lines_count + st.empty_lines_count =
          (files.map List.length).sum := by
  by_cases hc : cfg.case_sensitive = true
  · refine ⟨(files.foldl (fun s f => f.foldl (statsUpdate cfg.comment_marker) {s with files_count := s.files_count + 1}) initState), ?_, ?_, ?_, ?_, ?_⟩
    · simp only [global_search, if_pos hstr, hc, eq_self_iff_true, if_true]
      rw [if_neg (fun hcon => absurd hcon.2 (by decide))]
      rw [scanFiles_stats_run _ rfl files initState]
    · exact (statsFold_files cfg.comment_marker files initState).1
    · exact (statsFold_files cfg.comment_marker files initState).2.1
    · have := (statsFold_files cfg.comment_marker files initState).2.2.1
      simpa [initState] using this
    · have := (statsFold_files cfg.comment_marker files initState).2.2.2
      simpa [initState] using this
  · refine ⟨(files.foldl (fun s f => f.foldl (statsUpdate cfg.comment_marker) {s with files_count := s.files_count + 1}) initState), ?_, ?_, ?_, ?_, ?_⟩
    · have hcf : cfg.case_sensitive = false := by
        cases hb : cfg.case_sensitive
        · rfl
        · exact absurd hb hc
      simp only [global_search, if_pos hstr, hcf, Bool.false_eq_true, if_false]
      rw [if_neg (by simpa [hcf] using hvalid)]
      rw [scanFiles_stats_run _ rfl files initState]
      simp
    · exact (statsFold_files cfg.comment_marker files initState).1
    · exact (statsFold_files cfg.comment_marker files initState).2.1
    · have := (statsFold_files cfg.comment_marker files initState).2.2.1
      simpa [initState] using this
    · have := (statsFold_files cfg.comment_marker files initState).2.2.2
      simpa [initState] using this

/-- Witness for the amended C10 at a concrete valid configuration. -/
theorem empty_string_stats_amended_witness :
    ((⟨[], true, false, '#', 100, false, none⟩ : Config).string = []
      ∧ ¬ ((⟨[], true, false, '#', 100, false, none⟩ : Config).replace_with.isSome = true
            ∧ (⟨[], true, false, '#', 100, false, none⟩ : Config).case_sensitive = false))
    ∧ ∃ st : ScanState,
        global_search ⟨[], true, false, '#', 100, false, none⟩ [["# c".data, "  ".data]] =
          .ok ⟨.statsMsg st.code_lines_count st.comments_lines_count
                  st.empty_lines_count st.files_count, [["# c".data, "  ".data]], st⟩
        ∧ st.occurrences = 0 ∧ st.matching_lines = 0
        ∧ st.files_count = ([["# c".data, "  ".data]] : List (List Line)).length
        ∧ st.code_lines_count + st.comments_lines_count + st.empty_lines_count =
            (([["# c".data, "  ".data]] : List (List Line)).map List.length).sum :=
  ⟨⟨by decide, by decide⟩,
    empty_string_stats_amended ⟨[], true, false, '#', 100, false, none⟩
      [["# c".data, "  ".data]] (by decide) (by decide)⟩

theorem scanLine_none_of_strFind (cfg : Config) (l : Line)
    (h : strFind (if cfg.case_sensitive then l else lowerLine l) cfg.string = none) :
    scanLine cfg l = none := by
  unfold scanLine
  by_cases hcl : (!cfg.include_comments && startsWithMarker cfg.comment_marker l) = true
  · rw [if_pos hcl]
  · rw [if_neg hcl]
    simp only [h]

theorem statsFold_state_props (mk : Char) (files : List (List Line)) :
    (files.foldl (fun s f => f.foldl (statsUpdate mk) {s with files_count := s.files_count + 1}) initState).occurrences = 0
    ∧ (files.foldl (fun s f => f.foldl (statsUpdate mk) {s with files_count := s.files_count + 1}) initState).matching_lines = 0 := by
  obtain ⟨h1, h2, _, _⟩ := statsFold_files mk files initState
  exact ⟨h1, h2⟩

/-- **C8.** A search string that occurs nowhere (under the configured case
folding) leaves every scanned file byte-identical — also in replace mode —
reports zero occurrences, and never truncates. -/
theorem noop_search_frame (cfg : Config) (files : List (List Line))
    (hno : ∀ f ∈ files, ∀ l ∈ f,
      strFind (if cfg.case_sensitive then l else lowerLine l)
        (if cfg.case_sensitive then cfg.string else lowerLine cfg.string) = none)
    (res : RunResult) (hres : global_search cfg files = .ok res) :
    res.state.occurrences = 0 ∧ res.files = files ∧ res.summary ≠ .truncatedMsg := by
  by_cases hc : cfg.case_sensitive = true
  · by_cases hstr : cfg.string = []
    · simp only [global_search, if_pos hstr, hc, eq_self_iff_true, if_true] at hres
      split at hres
      · exact absurd hres (by simp)
      · rw [scanFiles_stats_run _ rfl files initState] at hres
        simp only [eq_self_iff_true, if_true, Except.ok.injEq] at hres
        rw [← hres]
        exact ⟨(statsFold_state_props _ files).1, rfl, by simp⟩
    · by_cases hst : cfg.stats = true
      · simp only [global_search, if_neg hstr, hc, eq_self_iff_true, if_true] at hres
        split at hres
        · exact absurd hres (by simp)
        · rw [scanFiles_stats_run cfg hst files initState] at hres
          simp only [hst, eq_self_iff_true, if_true, Except.ok.injEq] at hres
          rw [← hres]
          exact ⟨(statsFold_state_props _ files).1, rfl, by simp⟩
      · have hstf : cfg.stats = false := by
          cases hb : cfg.stats
          · rfl
          · exact absurd hb hst
        have hall : ∀ f ∈ files, ∀ l ∈ f, scanLine cfg l = none := fun f hf l hl =>
          scanLine_none_of_strFind cfg l (by simpa [hc] using hno f hf l hl)
        simp only [global_search, if_neg hstr, hc, eq_self_iff_true, if_true] at hres
        split at hres
        · exact absurd hres (by simp)
        · rw [scanFiles_nomatch cfg hstf files initState (by simp [initState]) hall] at hres
          cases hrw : cfg.replace_with with
          | none =>
            simp only [hstf, hrw, Bool.false_eq_true, if_false, Except.ok.injEq] at hres
            rw [← hres]
            exact ⟨rfl, rfl, by simp⟩
          | some r =>
            simp only [hstf, hrw, Bool.false_eq_true, if_false, Except.ok.injEq] at hres
            rw [← hres]
            exact ⟨rfl, rfl, by simp⟩
  · have hcf : cfg.case_sensitive = false := by
      cases hb : cfg.case_sensitive
      · rfl
      · exact absurd hb hc
    by_cases hstr : cfg.string = []
    · simp only [global_search, if_pos hstr, hcf, Bool.false_eq_true, if_false] at hres
      split at hres
      · exact absurd hres (by simp)
      · rw [scanFiles_stats_run _ rfl files initState] at hres
        simp only [eq_self_iff_true, if_true, Except.ok.injEq] at hres
        rw [← hres]
        exact ⟨(statsFold_state_props _ files).1, rfl, by simp⟩
    · by_cases hst : cfg.stats = true
      · simp only [global_search, if_neg hstr, hcf, Bool.false_eq_true, if_false] at hres
        split at hres
        · exact absurd hres (by simp)
        · rw [scanFiles_stats_run {cfg with string := lowerLine cfg.string, case_sensitive := false} hst files initState] at hres
          simp only [hst, eq_self_iff_true, if_true, Except.ok.injEq] at hres
          rw [← hres]
          exact ⟨(statsFold_state_props _ files).1, rfl, by simp⟩
      · have hstf : cfg.stats = false := by
          cases hb : cfg.stats
          · rfl
          · exact absurd hb hst
        have hall : ∀ f ∈ files, ∀ l ∈ f,
            scanLine {cfg with string := lowerLine cfg.string, case_sensitive := false} l = none :=
          fun f hf l hl =>
            scanLine_none_of_strFind {cfg with string := lowerLine cfg.string, case_sensitive := false} l
              (by simpa [hcf] using hno f hf l hl)
        simp only [global_search, if_neg hstr, hcf, Bool.false_eq_true, if_false] at hres
        split at hres
        · exact absurd hres (by simp)
        · rw [scanFiles_nomatch {cfg with string := lowerLine cfg.string, case_sensitive := false} hstf files initState (by simp [initState]) hall] at hres
          cases hrw : cfg.replace_with with
          | none =>
            simp only [hstf, hrw, Bool.false_eq_true, if_false, Except.ok.injEq] at hres
            rw [← hres]
            exact ⟨rfl, rfl, by simp⟩
          | some r =>
            simp only [hstf, hrw, Bool.false_eq_true, if_false, Except.ok.injEq] at hres
            rw [← hres]
            exact ⟨rfl, rfl, by simp⟩

/-- Witness for C8: a replace-mode run over a file that never matches
leaves the file unchanged and reports zero occurrences. -/
theorem noop_search_frame_witness :
    ((∀ f ∈ ([["hello".data]] : List (List Line)), ∀ l ∈ f,
        strFind
          (if (⟨"zzz".data, true, false, '#', 100, false, some "b".data⟩ : Config).case_sensitive
            then l else lowerLine l)
          (if (⟨"zzz".data, true, false, '#', 100, false, some "b".data⟩ : Config).case_sensitive
            then (⟨"zzz".data, true, false, '#', 100, false, some "b".data⟩ : Config).string
            else lowerLine (⟨"zzz".data, true, false, '#', 100, false, some "b".data⟩ : Config).string) = none)
      ∧ global_search ⟨"zzz".data, true, false, '#', 100, false, some "b".data⟩ [["hello".data]] =
          .ok ⟨.replacedMsg 0, [["hello".data]], ⟨0, 0, 0, 1, 0, 0⟩⟩)
    ∧ (⟨.replacedMsg 0, [["hello".data]], ⟨0, 0, 0, 1, 0, 0⟩⟩ : RunResult).state.occurrences = 0
    ∧ (⟨.replacedMsg 0, [["hello".data]], ⟨0, 0, 0, 1, 0, 0⟩⟩ : RunResult).files = [["hello".data]]
    ∧ (⟨.replacedMsg 0, [["hello".data]], ⟨0, 0, 0, 1, 0, 0⟩⟩ : RunResult).summary ≠ .truncatedMsg :=
  ⟨⟨by decide, by decide⟩,
    noop_search_frame ⟨"zzz".data, true, false, '#', 100, false, some "b".data⟩
      [["hello".data]] (by decide) ⟨.replacedMsg 0, [["hello".data]], ⟨0, 0, 0, 1, 0, 0⟩⟩
      (by decide)⟩

/-- **C3 counterexample.** The file with the single line a-space-a has
exactly one matching line; replacing a by ab rewrites the line to ab-ab:
the single counted match leads to two replacements (not one replacement
per match), and re-running the original search on the rewritten file
yields one occurrence, not zero. -/
theorem replace_roundtrip_cex :
    fileC3.countP (fun l => (scanLine cfgC3 l).isSome) = 1
    ∧ global_search cfgC3 [fileC3] =
        .ok ⟨.replacedMsg 1, [["ab ab".data]], ⟨0, 0, 0, 1, 1, 1⟩⟩
    ∧ global_search {cfgC3 with replace_with := none} [["ab ab".data]] =
        .ok ⟨.occurrencesMsg 1, [["ab ab".data]], ⟨0, 0, 0, 1, 1, 1⟩⟩
    ∧ (1 : Nat) ≠ 0 :=
  ⟨by decide, by decide, by decide, by decide⟩

/-- **C3 (amended).** For a single file with exactly one matching line,
replace mode rewrites that line with every occurrence of the search string
replaced (Python str.replace semantics, so possibly more than one
replacement for the single counted match), leaves all other lines
byte-for-byte unchanged, and reports one replaced occurrence; if the
rewritten matching line no longer contains the search string, re-running
the original search on the rewritten file yields zero occurrences. -/
theorem replace_roundtrip_amended (cfg : Config) (f : List Line) (r : Line)
    (hstats : cfg.stats = false) (hstr : cfg.string ≠ [])
    (hcase : cfg.case_sensitive = true) (hrepl : cfg.replace_with = some r)
    (hcount : f.countP (fun l => (scanLine cfg l).isSome) = 1)
    (hmax : 1 ≤ cfg.maximum) :
    global_search cfg [f] =
      .ok ⟨.replacedMsg 1,
            [f.map (fun l => if (scanLine cfg l).isSome then pyReplace l cfg.string r else l)],
            ⟨0, 0, 0, 1, 1, 1⟩⟩
    ∧ ((∀ l ∈ f, (scanLine cfg l).isSome = true →
          strFind (pyReplace l cfg.string r) cfg.string = none) →
        global_search {cfg with replace_with := none}
            [f.map (fun l => if (scanLine cfg l).isSome then pyReplace l cfg.string r else l)] =
          .ok ⟨.occurrencesMsg 0,
                [f.map (fun l => if (scanLine cfg l).isSome then pyReplace l cfg.string r else l)],
                ⟨0, 0, 0, 1, 0, 0⟩⟩) := by
  have hmap : f.map (outLine cfg) =
      f.map (fun l => if (scanLine cfg l).isSome then pyReplace l cfg.string r else l) :=
    List.map_congr_left (fun l hl => by
      by_cases hs : (scanLine cfg l).isSome = true
      · simp [outLine, hs, hrepl, hcase]
      · simp [outLine, hs])
  constructor
  · have hb : (⟨0, 0, 0, 1, 0, 0⟩ : ScanState).matching_lines
        + f.countP (fun l => (scanLine cfg l).isSome) ≤ cfg.maximum := by
      rw [hcount]; simpa using hmax
    have hsf := scanFile_spec cfg hstats f ⟨0, 0, 0, 1, 0, 0⟩ hb
    rw [hcount, hmap] at hsf
    have hcons := scanFiles_cons_inl cfg initState f [] _ _ _ hsf
    rw [scanFiles] at hcons
    simp only [hrepl, Option.isSome_some, ne_eq, one_ne_zero, not_false_eq_true, and_self,
      if_true] at hcons
    simp only [global_search, if_neg hstr, hcase, eq_self_iff_true, if_true]
    rw [if_neg (fun hcon => absurd hcon.2 (by decide))]
    rw [hcons]
    simp [hstats, hrepl]
  · intro hclean
    have hcfg2 : ({cfg with case_sensitive := true, replace_with := none} : Config) =
        {cfg with replace_with := none} := by
      rw [← hcase]
    have hall : ∀ g ∈ [f.map (fun l => if (scanLine cfg l).isSome then pyReplace l cfg.string r else l)],
        ∀ l ∈ g, scanLine {cfg with case_sensitive := true, replace_with := none} l = none := by
      intro g hg l hl
      rw [List.mem_singleton] at hg
      subst hg
      rw [List.mem_map] at hl
      obtain ⟨l0, hl0, hval⟩ := hl
      by_cases hs : (scanLine cfg l0).isSome = true
      · rw [if_pos hs] at hval
        subst hval
        exact scanLine_none_of_strFind {cfg with case_sensitive := true, replace_with := none} _
          (by simpa using hclean l0 hl0 hs)
      · rw [if_neg hs] at hval
        subst hval
        have hnone : scanLine cfg l0 = none := by
          cases hopt : scanLine cfg l0 with
          | none => rfl
          | some p => rw [hopt] at hs; exact absurd rfl hs
        rw [hcfg2]
        exact hnone
    have hrun := scanFiles_nomatch {cfg with case_sensitive := true, replace_with := none} hstats
      [f.map (fun l => if (scanLine cfg l).isSome then pyReplace l cfg.string r else l)]
      initState (by simp [initState]) hall
    simp only [global_search, if_neg hstr, hcase, eq_self_iff_true, if_true]
    rw [if_neg (fun hcon => absurd hcon.2 (by decide))]
    rw [hrun]
    simp [hstats, initState]

/-- Witness for the amended C3: replacing a by b in the single matching
line xay gives xby, and the re-run finds nothing. -/
theorem replace_roundtrip_amended_witness :
    ((⟨"a".data, true, false, '#', 100, false, some "b".data⟩ : Config).stats = false
      ∧ (⟨"a".data, true, false, '#', 100, false, some "b".data⟩ : Config).string ≠ []
      ∧ (⟨"a".data, true, false, '#', 100, false, some "b".data⟩ : Config).case_sensitive = true
      ∧ (⟨"a".data, true, false, '#', 100, false, some "b".data⟩ : Config).replace_with = some "b".data
      ∧ (["xay".data] : List Line).countP
          (fun l => (scanLine ⟨"a".data, true, false, '#', 100, false, some "b".data⟩ l).isSome) = 1
      ∧ 1 ≤ (⟨"a".data, true, false, '#', 100, false, some "b".data⟩ : Config).maximum)
    ∧ global_search ⟨"a".data, true, false, '#', 100, false, some "b".data⟩ [["xay".data]] =
        .ok ⟨.replacedMsg 1, [["xby".data]], ⟨0, 0, 0, 1, 1, 1⟩⟩
    ∧ global_search {(⟨"a".data, true, false, '#', 100, false, some "b".data⟩ : Config) with replace_with := none}
          [["xby".data]] =
        .ok ⟨.occurrencesMsg 0, [["xby".data]], ⟨0, 0, 0, 1, 0, 0⟩⟩ :=
  ⟨⟨by decide, by decide, by decide, by decide, by decide, by decide⟩,
    (replace_roundtrip_amended ⟨"a".data, true, false, '#', 100, false, some "b".data⟩
        ["xay".data] "b".data (by decide) (by decide) (by decide) (by decide)
        (by decide) (by decide)).1.trans (by decide),
    ((replace_roundtrip_amended ⟨"a".data, true, false, '#', 100, false, some "b".data⟩
        ["xay".data] "b".data (by decide) (by decide) (by decide) (by decide)
        (by decide) (by decide)).2 (by decide)).trans (by decide)⟩

end GlobalSearch
